import Mathlib

/-!
Shallow embedding of the `skill-manager` synchronization engine
(TypeScript sources: `src/validation.ts`, `src/metadata-manager.ts`,
`src/skip-checker.ts`, `src/sync.ts`, `src/fetchers/{git-file,git-folder,gist}.ts`,
`src/constants.ts`, `src/types.ts`), together with theorems checking the
natural-language specification against the code.

Strings are processed over `List Char` (structurally recursive, kernel
computable); this is an exact model of JavaScript string handling for the
ASCII data the program manipulates.  External effects (filesystem state,
network responses, the git binary, the interactive prompt) enter as
explicit environment records, and each fetch strategy is embedded as a
function producing the ordered list of its observable actions together
with its outcome.
-/

namespace SkillManager

/-! ### Character-list string utilities (models of JS string primitives) -/

/-- Split a character list at every occurrence of `sep` (model of
JavaScript `String.prototype.split` with a one-character separator). -/
def splitCharAux (sep : Char) : List Char → List Char → List (List Char)
  | [], acc => [acc.reverse]
  | c :: cs, acc =>
    if c = sep then acc.reverse :: splitCharAux sep cs []
    else splitCharAux sep cs (c :: acc)

/-- Split on a separator character. -/
def splitChar (sep : Char) (cs : List Char) : List (List Char) :=
  splitCharAux sep cs []

/-- Lexicographic `≤` on character lists by code point: the order used by
JavaScript `Array.prototype.sort`'s default string comparator (identical to
UTF-16 comparison on the ASCII paths the program handles). -/
def lexLe : List Char → List Char → Bool
  | [], _ => true
  | _ :: _, [] => false
  | a :: as, b :: bs => if a < b then true else if b < a then false else lexLe as bs

/-- Join path/URL segments with `/` separators. -/
def joinSegs : List (List Char) → List Char
  | [] => []
  | [s] => s
  | s :: rest => s ++ '/' :: joinSegs rest

/-- Whether a segment ends in `:` (used to recognize and drop a URL scheme
segment such as `https:` after splitting on `/`). -/
def endsWithColon (s : List Char) : Bool :=
  match s.reverse with
  | c :: _ => c = ':'
  | [] => false

/-- Drop a leading scheme segment (`https:`), if present, from the list of
nonempty `/`-separated segments of a URL. -/
def stripScheme (segs : List (List Char)) : List (List Char) :=
  match segs with
  | s :: rest => if endsWithColon s then rest else segs
  | [] => []

/-- Nonempty `/`-separated segments of a URL, scheme dropped. -/
def urlSegs (url : String) : List (List Char) :=
  stripScheme ((splitChar '/' url.toList).filter (fun s => s ≠ []))

/-- Whether `cs` contains two consecutive dots (the `NO_TRAVERSAL` pattern
`/\.\./` from `constants.ts`). -/
def hasDotDot : List Char → Bool
  | [] => false
  | [_] => false
  | a :: b :: rest => (a = '.' ∧ b = '.') ∨ hasDotDot (b :: rest)

/-- A character allowed by the `SAFE_NAME` pattern `/^[a-zA-Z0-9_-]+$/`. -/
def isSafeChar (c : Char) : Bool :=
  (('a' ≤ c ∧ c ≤ 'z') ∨ ('A' ≤ c ∧ c ≤ 'Z') ∨ ('0' ≤ c ∧ c ≤ '9') ∨ c = '-' ∨ c = '_')

/-- JavaScript `String.prototype.trim` on a character list. -/
def trimChars (cs : List Char) : List Char :=
  ((cs.dropWhile Char.isWhitespace).reverse.dropWhile Char.isWhitespace).reverse

/-! ### Constants (from `src/constants.ts`) -/

/-- `DEFAULT_SKILL_FILENAME` from `constants.ts`. -/
def DEFAULT_SKILL_FILENAME : String := "SKILL.md"

/-- `METADATA_FILENAME` from `constants.ts`. -/
def METADATA_FILENAME : String := ".skill-manager.json"

/-- `DEFAULT_GIT_REF` from `constants.ts`. -/
def DEFAULT_GIT_REF : String := "main"

/-- `GIST_CONFIG.MARKDOWN_EXTENSIONS` from `constants.ts`. -/
def MARKDOWN_EXTENSIONS : List String := [".md", ".markdown"]

/-- `FILE_SIZE_LIMITS.MAX_FILE_SIZE` from `constants.ts` (50 MB). -/
def MAX_FILE_SIZE : Nat := 52428800

/-- Error codes from `constants.ts` (the subset the embedded code paths
raise). -/
def VALIDATION_ERROR : String := "VALIDATION_ERROR"

/-- `ERROR_CODES.INVALID_URL`. -/
def INVALID_URL : String := "INVALID_URL"

/-- `ERROR_CODES.FETCH_FAILED`. -/
def FETCH_FAILED : String := "FETCH_FAILED"

/-- `ERROR_CODES.GIT_ERROR`. -/
def GIT_ERROR : String := "GIT_ERROR"

/-- `ERROR_CODES.FILE_SIZE_EXCEEDED`. -/
def FILE_SIZE_EXCEEDED : String := "FILE_SIZE_EXCEEDED"

/-! ### Core data types (from `src/types.ts`) -/

/-- `SkillType` from `types.ts`. -/
inductive SkillType where
  | GIT_FILE
  | GIT_FOLDER
  | GIT_REPO
  | GIST
deriving DecidableEq

/-- `SkillConfig` from `types.ts`. Optional string fields are `Option String`;
JavaScript treats the empty string as falsy, which the embedding models
explicitly via `isTruthy`. -/
structure SkillConfig where
  type : SkillType
  remote : String
  ref : Option String := none
  filename : Option String := none
deriving DecidableEq

/-- `SkillMetadata` from `types.ts` (the persisted sidecar record). -/
structure SkillMetadata where
  remote : String
  ref : Option String := none
  type : SkillType
  lastSync : String
  contentHash : String
deriving DecidableEq

/-- `SkipCheckResult` from `types.ts`. `needsInteraction = none` models the
field being absent from the returned object. -/
structure SkipCheckResult where
  shouldSkip : Bool
  reason : String
  needsInteraction : Option Bool := none
deriving DecidableEq

/-- `FetchResult` from `types.ts` (one per skill per sync run). -/
structure FetchResult where
  skillName : String
  success : Bool
  error : Option String := none
  skipped : Option Bool := none
  reason : Option String := none
deriving DecidableEq

/-- JavaScript truthiness of an optional string (`undefined` and `""` are
falsy, every other string truthy). -/
def isTruthy : Option String → Bool
  | none => false
  | some s => s ≠ ""

/-- `a || b` for an optional string against a string default (JS
short-circuit on truthiness). -/
def orElseTruthy (a : Option String) (b : String) : String :=
  match a with
  | some s => if s = "" then b else s
  | none => b

/-! ### Content hashing (from `src/metadata-manager.ts`)

`calculateContentHash` feeds, for each tracked file in sorted path order,
the file's relative path and then its raw bytes into one SHA-256 digest and
returns the hex digest.  SHA-256 is a fixed function of the byte stream it
receives, so every equality or difference the specification claims about
hash values is decided by that stream.  The embedding therefore computes
the exact byte stream handed to the digest (`calculateContentHash` below):
equal streams force equal hashes outright, and the specification's
"difference changes the hash" claims are assessed on the stream, which is
the strongest form in which they can hold. -/

/-- One enumerated file: path relative to the skill directory, and raw
byte content. -/
structure FileEntry where
  relPath : String
  content : List Nat
deriving DecidableEq

/-- Byte sequence of a path string as fed to `hash.update` (code points;
identical to UTF-8 on the ASCII paths involved). -/
def strBytes (s : String) : List Nat := s.toList.map Char.toNat

/-- Comparator under which `files.sort()` orders the enumerated files.  The
code sorts the absolute path strings; all of them share the skill-directory
prefix, so the order agrees with lexicographic order on the relative
paths. -/
def fileLe (a b : FileEntry) : Prop := lexLe a.relPath.toList b.relPath.toList = true

instance : DecidableRel fileLe := fun a b => by unfold fileLe; infer_instance

instance : IsTotal FileEntry fileLe := by
  constructor
  intro x y
  unfold fileLe
  generalize x.relPath.toList = a
  generalize y.relPath.toList = b
  induction a generalizing b with
  | nil => left; rfl
  | cons c cs ih =>
    cases b with
    | nil => right; rfl
    | cons d ds =>
      rcases lt_trichotomy c d with h | h | h
      · left; simp [lexLe, h]
      · subst h
        rcases ih ds with h2 | h2
        · left; simp [lexLe, h2]
        · right; simp [lexLe, h2]
      · right; simp [lexLe, h, not_lt_of_gt h]

instance : IsTrans FileEntry fileLe := by
  constructor
  intro x y z
  unfold fileLe
  generalize x.relPath.toList = a
  generalize y.relPath.toList = b
  generalize z.relPath.toList = c
  induction a generalizing b c with
  | nil => intro _ _; rfl
  | cons u us ih =>
    intro hab hbc
    cases b with
    | nil => simp [lexLe] at hab
    | cons v vs =>
      cases c with
      | nil => simp [lexLe] at hbc
      | cons w ws =>
        rcases lt_trichotomy u v with huv | huv | huv
        · rcases lt_trichotomy v w with hvw | hvw | hvw
          · simp [lexLe, lt_trans huv hvw]
          · subst hvw; simp [lexLe, huv]
          · simp [lexLe, hvw, not_lt_of_gt hvw] at hbc
        · subst huv
          rcases lt_trichotomy u w with hvw | hvw | hvw
          · simp [lexLe, hvw]
          · subst hvw
            simp only [lexLe, lt_irrefl, if_false] at hab hbc ⊢
            exact ih vs ws hab hbc
          · simp [lexLe, hvw, not_lt_of_gt hvw] at hbc
        · simp [lexLe, huv, not_lt_of_gt huv] at hab

/-- The `files.sort()` step of `calculateContentHash`: JavaScript's sort
produces the (for distinct paths, unique) ordering of the enumerated files
under the default string comparator. -/
def sortFiles (files : List FileEntry) : List FileEntry :=
  List.insertionSort fileLe files

/-- The files that actually reach the digest: sorted, with the metadata
sidecar (relative path exactly `.skill-manager.json`, i.e. the sidecar in
the directory root) skipped. -/
def trackedFiles (files : List FileEntry) : List FileEntry :=
  (sortFiles files).filter (fun f => f.relPath ≠ METADATA_FILENAME)

/-- Running digest state after the successive `hash.update` calls on a list
of files: for each file, update with its relative path, then with its
content. -/
def digestStream (l : List FileEntry) : List Nat :=
  l.foldl (fun acc f => acc ++ strBytes f.relPath ++ f.content) []

/-- The byte stream `calculateContentHash` feeds into the SHA-256 digest:
for each tracked file in sorted order, `hash.update(relativePath)` then
`hash.update(content)`.  The hex digest returned by the code is the fixed
SHA-256 function applied to this stream. -/
def calculateContentHash (files : List FileEntry) : List Nat :=
  digestStream (trackedFiles files)

/-- Filesystem tree entry, for `getAllFiles` (from `metadata-manager.ts`). -/
inductive FsEntry where
  | file (name : String) (content : List Nat)
  | dir (name : String) (entries : List FsEntry)

/-- Join a relative-path accumulator with an entry name (`path.join`). -/
def joinRel (base name : String) : String :=
  if base = "" then name else base ++ "/" ++ name

/-- Whether a directory name starts with the hidden-file marker `.`
(`entry.name.startsWith('.')`). -/
def startsWithDot (s : String) : Bool :=
  match s.toList with
  | [] => false
  | c :: _ => c = '.'

/-- `getAllFiles` from `metadata-manager.ts`: recursively enumerate files,
skipping directories whose name starts with `.`; paths are reported
relative to the root given in `base`. -/
def getAllFiles (base : String) : List FsEntry → List FileEntry
  | [] => []
  | .file n c :: es => ⟨joinRel base n, c⟩ :: getAllFiles base es
  | .dir n sub :: es =>
    (if startsWithDot n then [] else getAllFiles (joinRel base n) sub)
      ++ getAllFiles base es

/-- Strict version of the sort comparator (used to get antisymmetry once
paths are known to be distinct). -/
def fileLt (a b : FileEntry) : Prop := fileLe a b ∧ ¬ fileLe b a

instance : IsAntisymm FileEntry fileLt :=
  ⟨fun _ _ h1 h2 => absurd h1.1 h2.2⟩

/-! ### URL parsing and building (spec-modelled)

The repository's `url-parser` module (`parseGitUrl`, `parseGistUrl`,
`resolveRef`, `buildRawUrl`, `buildRepositoryUrl`) is not among the
provided sources; only its callers are.  The definitions in this section
are therefore modelled from the specification (§4.1, §6, §8 and the
README's ref-precedence description) rather than transcribed. -/

/-- `ParsedGitUrl` from `types.ts`. -/
structure ParsedGitUrl where
  owner : String
  repo : String
  ref : Option String := none
  path : Option String := none
  type : String := "github"
deriving DecidableEq

/-- The path marker segment denoting a file (`blob`) or folder (`tree`)
within a repository, per the spec's URL-shape table. -/
def markerOf : SkillType → Option (List Char)
  | .GIT_FILE => some "blob".toList
  | .GIT_FOLDER => some "tree".toList
  | _ => none

/-- Platform tag of a host (spec §3: github, gitlab, bitbucket, generic). -/
def platformOf (host : List Char) : String :=
  if host = "github.com".toList then "github"
  else if host = "gitlab.com".toList then "gitlab"
  else if host = "bitbucket.org".toList then "bitbucket"
  else "generic"

/-- Modelled from the spec: `parseGitUrl` from the missing `url-parser`
module.  Per spec §4.1/§6 the URL is decomposed as
`<host>/<owner>/<repo>[/<marker>/<ref>/<path...>]` where the marker is
`blob` for GIT_FILE and `tree` for GIT_FOLDER; the segment after the
marker is the embedded ref and the remainder the embedded path.  A URL
without at least host, owner and repo lacks required structure and fails
(`none`, modelling the thrown `InvalidSource`). -/
def parseGitUrl (url : String) (t : SkillType) : Option ParsedGitUrl :=
  match urlSegs url with
  | host :: owner :: repo :: rest =>
    let platform := platformOf host
    (match markerOf t, rest with
     | some marker, m :: r :: ps =>
       if m = marker then
         some ⟨owner.asString, repo.asString, some r.asString,
               (if ps = [] then none else some (joinSegs ps).asString), platform⟩
       else some ⟨owner.asString, repo.asString, none, none, platform⟩
     | _, _ => some ⟨owner.asString, repo.asString, none, none, platform⟩)
  | _ => none

/-- Modelled from the spec: `parseGistUrl` from the missing `url-parser`
module.  Per spec §6 a Gist URL has the shape `gist.<host>/<user>/<id>`
(the user segment optional per the extraction pattern in
`validateGistUrl`); the result is the gist id. -/
def parseGistUrl (url : String) : Option String :=
  match urlSegs url with
  | host :: rest =>
    if host = "gist.github.com".toList then
      match rest with
      | _ :: i :: _ => some i.asString
      | [i] => some i.asString
      | [] => none
    else none
  | [] => none

/-- Modelled from the spec: `resolveRef` from the missing `url-parser`
module.  Precedence per spec §4.1/§8 and the README: the configuration
ref always wins, else the URL-embedded ref, else the fixed default branch
`main`. -/
def resolveRef (configRef urlRef : Option String) : String :=
  orElseTruthy configRef (orElseTruthy urlRef DEFAULT_GIT_REF)

/-- Host for a platform tag when rebuilding URLs (primary forge for the
generic tag; the exact host is immaterial to every claim below). -/
def hostOfPlatform (p : String) : String :=
  if p = "gitlab" then "gitlab.com"
  else if p = "bitbucket" then "bitbucket.org"
  else "github.com"

/-- Raw-content host per platform (the primary forge's raw host is
`GITHUB_CONFIG.RAW_CONTENT_URL` in `constants.ts`; secondary forges serve
raw content from their own hosts). -/
def rawHostOfPlatform (p : String) : String :=
  if p = "gitlab" then "gitlab.com"
  else if p = "bitbucket" then "bitbucket.org"
  else "raw.githubusercontent.com"

/-- Modelled from the spec: `buildRawUrl` from the missing `url-parser`
module — the direct-content-retrieval URL built from owner, repo, ref and
path on the platform's raw-content host. -/
def buildRawUrl (p : ParsedGitUrl) : String :=
  "https://" ++ rawHostOfPlatform p.type ++ "/" ++ p.owner ++ "/" ++ p.repo ++ "/"
    ++ p.ref.getD DEFAULT_GIT_REF ++ "/" ++ p.path.getD ""

/-- Modelled from the spec: `buildRepositoryUrl` from the missing
`url-parser` module — a clonable repository URL from owner and repo. -/
def buildRepositoryUrl (p : ParsedGitUrl) : String :=
  "https://" ++ hostOfPlatform p.type ++ "/" ++ p.owner ++ "/" ++ p.repo ++ ".git"

/-! ### Path validation (from `src/validation.ts`) -/

/-- One normalization step of a path segment stack: `.` is dropped, `..`
pops the previous segment (excess `..` above the root is dropped, as Node
does for absolute paths), anything else is pushed. -/
def normSegsStep (acc : List (List Char)) (s : List Char) : List (List Char) :=
  if s = ['.'] then acc
  else if s = ['.', '.'] then acc.dropLast
  else acc ++ [s]

/-- Normalized segment list of a path. -/
def normSegs (segs : List (List Char)) : List (List Char) :=
  segs.foldl normSegsStep []

/-- Normalized nonempty segments of an absolute path string. -/
def pathSegs (p : String) : List (List Char) :=
  normSegs ((splitChar '/' p.toList).filter (fun s => s ≠ []))

/-- Render an absolute path from its segments (`/` for the empty list). -/
def renderAbs (segs : List (List Char)) : List Char :=
  '/' :: joinSegs segs

/-- `path.resolve` on an already-absolute path: normalization, rendered
back to characters. -/
def resolveChars (p : String) : List Char :=
  renderAbs (pathSegs p)

/-- `path.join(base, rel)` for an absolute `base`: concatenate and
normalize. -/
def joinPath (base rel : String) : String :=
  (renderAbs (normSegs ((splitChar '/' (base.toList ++ '/' :: rel.toList)).filter
    (fun s => s ≠ [])))).asString

/-- `validateFilePath` from `validation.ts`: resolves both paths and
passes (`true`) exactly when the resolved target starts with the resolved
base as a string prefix; `false` models the thrown
`SkillManagerError(VALIDATION_ERROR)`. -/
def validateFilePath (basePath targetPath : String) : Bool :=
  (resolveChars basePath).isPrefixOf (resolveChars targetPath)

/-- Genuine directory containment: the normalized segments of `base` are a
prefix of the normalized segments of `target` (so `target` lies at or
below `base` in the tree).  This is the semantic property
`validateFilePath` is intended to check. -/
def isWithinDir (base target : String) : Bool :=
  (pathSegs base).isPrefixOf (pathSegs target)

/-- `sanitizeSkillName` from `validation.ts`: `none` models a thrown
validation error, `some t` the returned trimmed name. -/
def sanitizeSkillName (name : String) : Option String :=
  if name = "" then none
  else if hasDotDot name.toList then none
  else
    let t := trimChars name.toList
    if t ≠ [] ∧ t.all isSafeChar then some t.asString else none

/-! ### Trusted-URL validation (from `src/validation.ts`) -/

/-- Result of `validateTrustedUrl`: passes, throws the untrusted-domain
`VALIDATION_ERROR`, or throws `INVALID_URL` because URL parsing failed. -/
inductive TrustedCheck where
  | ok
  | untrusted
  | invalidUrl
deriving DecidableEq

/-- Characters remaining after the first `://` (`none` when the input has
no scheme separator, in which case `new URL` throws). -/
def afterScheme : List Char → Option (List Char)
  | ':' :: '/' :: '/' :: rest => some rest
  | _ :: rest => afterScheme rest
  | [] => none

/-- `new URL(url).hostname`: the authority up to the first `/`, with any
`:port` suffix dropped; `none` models a URL parse failure. -/
def hostnameOfUrl (url : String) : Option (List Char) :=
  match afterScheme url.toList with
  | none => none
  | some rest =>
    let auth := rest.takeWhile (fun c => c ≠ '/')
    let host := auth.takeWhile (fun c => c ≠ ':')
    if host = [] then none else some host

/-- The default allow-list from `validateTrustedUrl`. -/
def defaultTrustedDomains : List String :=
  ["github.com", "gist.github.com", "raw.githubusercontent.com", "api.github.com"]

/-- One allow-list entry matches when the hostname equals the domain or
ends with `.` followed by the domain. -/
def domainMatches (host : List Char) (domain : String) : Bool :=
  host = domain.toList ∨ List.isSuffixOf ('.' :: domain.toList) host

/-- `validateTrustedUrl` from `validation.ts`. -/
def validateTrustedUrl (url : String) (allowedDomains : Option (List String)) :
    TrustedCheck :=
  match hostnameOfUrl url with
  | none => .invalidUrl
  | some host =>
    let allowed :=
      match allowedDomains with
      | some ds => defaultTrustedDomains ++ ds
      | none => defaultTrustedDomains
    if allowed.any (fun d => domainMatches host d) then .ok else .untrusted

/-! ### Skip checking (from `src/skip-checker.ts`) -/

/-- External state consulted by `shouldSkipSync`: whether the skill
directory exists, whether the metadata sidecar file exists, what
`loadMetadata` returned (`none` for missing/corrupt/incomplete metadata),
and the result of recomputing the content hash (`none` models a thrown
hash-computation error). -/
structure SkipEnv where
  dirExists : Bool
  metaFileExists : Bool
  loadedMetadata : Option SkillMetadata
  contentHashResult : Option String
deriving DecidableEq

/-- `hasExplicitRefInConfig` from `skip-checker.ts`: a truthy config ref
counts; otherwise for GIT_FILE/GIT_FOLDER a truthy URL-embedded ref counts
(parse failure counts as no ref); GIT_REPO and GIST without a config ref
have none. -/
def hasExplicitRefInConfig (c : SkillConfig) : Bool :=
  if isTruthy c.ref then true
  else if c.type = .GIT_FILE ∨ c.type = .GIT_FOLDER then
    match parseGitUrl c.remote c.type with
    | some p => isTruthy p.ref
    | none => false
  else false

/-- `resolveRefForSkill` from `skip-checker.ts`: for GIST the config ref
(possibly absent); for Git types the shared `resolveRef` precedence over
the parsed URL, falling back to the config ref if parsing throws. -/
def resolveRefForSkill (c : SkillConfig) : Option String :=
  if c.type = .GIST then c.ref
  else
    match parseGitUrl c.remote c.type with
    | some p => some (resolveRef c.ref p.ref)
    | none => c.ref

/-- `shouldSkipSync` from `skip-checker.ts`: the eight-step decision
sequence, in source order.  Interpolated detail in the reason strings
(old/new ref, pinned ref) is elided. -/
def shouldSkipSync (c : SkillConfig) (env : SkipEnv) : SkipCheckResult :=
  if ¬ env.dirExists then ⟨false, "skill directory does not exist", none⟩
  else if ¬ env.metaFileExists then ⟨false, "no metadata found (first-time sync)", none⟩
  else if ¬ hasExplicitRefInConfig c then
    ⟨false, "no explicit ref specified (tracking branch)", none⟩
  else
    match env.loadedMetadata with
    | none => ⟨false, "metadata is invalid or corrupted", none⟩
    | some m =>
      if m.remote ≠ c.remote then ⟨false, "remote URL has changed", none⟩
      else if m.type ≠ c.type then ⟨false, "skill type has changed", none⟩
      else if m.ref ≠ resolveRefForSkill c then ⟨false, "ref has changed", none⟩
      else
        match env.contentHashResult with
        | none => ⟨false, "failed to verify content integrity", none⟩
        | some h =>
          if m.contentHash ≠ h then
            ⟨false, "local modifications detected", some true⟩
          else ⟨true, "already synced", none⟩

/-! ### Gist file selection (from `src/fetchers/gist.ts`) -/

/-- A file in the Gist API response (`filename` plus content; the content
stands for the `content` string whose byte length is size-checked). -/
structure GistFile where
  filename : String
  content : String
deriving DecidableEq

/-- Whether a filename has a markdown-like extension:
`filename.toLowerCase().endsWith(ext)` for some ext in
`MARKDOWN_EXTENSIONS`. -/
def isMarkdownName (n : String) : Bool :=
  MARKDOWN_EXTENSIONS.any (fun ext => List.isSuffixOf ext.toList (n.toList.map Char.toLower))

/-- Result of the gist target-file selection: the chosen file, or the
message of the thrown `SkillManagerError`. -/
inductive GistPick where
  | ok (f : GistFile)
  | error (msg : String)
deriving DecidableEq

/-- The target-file selection of `fetchGist`, in source order: a truthy
configured filename selects exactly that key (failing hard when absent);
else the canonical `SKILL.md` key when present; else the first file with a
markdown-like extension; else the no-markdown failure.  `Object.values`
preserves the file order of the response, modelled by the list order. -/
def selectGistFile (configFilename : Option String) (files : List GistFile) :
    GistPick :=
  if isTruthy configFilename then
    match files.find? (fun f => f.filename = configFilename.getD "") with
    | some f => .ok f
    | none => .error "File not found in Gist"
  else
    match files.find? (fun f => f.filename = DEFAULT_SKILL_FILENAME) with
    | some f => .ok f
    | none =>
      match files.find? (fun f => isMarkdownName f.filename) with
      | some f => .ok f
      | none => .error "No markdown file found in Gist"

/-! ### Fetch strategies as action traces

Each strategy is embedded as a function from the configuration and an
environment (the outcomes of its external calls) to the ordered list of
observable actions it performs plus its outcome.  Directory creation
(`ensureSkillDirectory`) is pure bookkeeping and not recorded; retries
wrap the same call and are collapsed into one action. -/

/-- Observable actions of a fetch strategy. -/
inductive FetchAction where
  | validateUrl (url : String)
  | httpGet (url : String)
  | gitClone (url dest : String)
  | clearDir (dir : String)
  | copyDir (src dest : String)
  | writeFile (dir name : String)
  | writeMeta (dir : String)
  | removeDir (dir : String)
deriving DecidableEq

/-- Outcome of a fetch: success, or a thrown error with its code. -/
inductive FetchEnd where
  | ok
  | error (code : String)
deriving DecidableEq

/-- Environment for `fetchGitFile`: whether the trusted-URL check passes
is computed, the rest are network outcomes. -/
structure GitFileEnv where
  httpOk : Bool
  contentLengthHeader : Option Nat
  bodySize : Nat
deriving DecidableEq

/-- `fetchGitFile` from `fetchers/git-file.ts` as an action trace:
parse, require an embedded path, resolve the ref, build the raw URL,
validate it against the allow-list, fetch it, enforce the size ceiling
from the header and from the received body, write `SKILL.md`, persist
metadata. -/
def fetchGitFile (skillName : String) (c : SkillConfig) (skillsPath : String)
    (env : GitFileEnv) : List FetchAction × FetchEnd :=
  match parseGitUrl c.remote .GIT_FILE with
  | none => ([], .error INVALID_URL)
  | some parsed =>
    if ¬ isTruthy parsed.path then ([], .error INVALID_URL)
    else
      let ref := resolveRef c.ref parsed.ref
      let rawUrl := buildRawUrl { parsed with ref := some ref }
      match validateTrustedUrl rawUrl none with
      | .untrusted => ([.validateUrl rawUrl], .error VALIDATION_ERROR)
      | .invalidUrl => ([.validateUrl rawUrl], .error INVALID_URL)
      | .ok =>
        if ¬ env.httpOk then
          ([.validateUrl rawUrl, .httpGet rawUrl], .error FETCH_FAILED)
        else if (match env.contentLengthHeader with
                 | some n => decide (MAX_FILE_SIZE < n)
                 | none => false) then
          ([.validateUrl rawUrl, .httpGet rawUrl], .error FILE_SIZE_EXCEEDED)
        else if MAX_FILE_SIZE < env.bodySize then
          ([.validateUrl rawUrl, .httpGet rawUrl], .error FILE_SIZE_EXCEEDED)
        else
          let skillDir := joinPath skillsPath skillName
          ([.validateUrl rawUrl, .httpGet rawUrl,
            .writeFile skillDir DEFAULT_SKILL_FILENAME, .writeMeta skillDir], .ok)

/-- Environment for clone-based fetchers: whether `git clone` succeeds. -/
structure GitCloneEnv where
  cloneOk : Bool
deriving DecidableEq

/-- `fetchGitRepo` from `fetchers/git-file.ts` as an action trace: parse,
resolve the ref from config only, clear the destination, validate it
under the skills path, clone straight into it (no trusted-URL check),
delete `.git`, persist metadata. -/
def fetchGitRepo (skillName : String) (c : SkillConfig) (skillsPath : String)
    (env : GitCloneEnv) : List FetchAction × FetchEnd :=
  match parseGitUrl c.remote .GIT_REPO with
  | none => ([], .error INVALID_URL)
  | some parsed =>
    let skillDir := joinPath skillsPath skillName
    if ¬ validateFilePath skillsPath skillDir then
      ([.clearDir skillDir], .error VALIDATION_ERROR)
    else
      let repoUrl := buildRepositoryUrl parsed
      if ¬ env.cloneOk then
        ([.clearDir skillDir, .gitClone repoUrl skillDir], .error GIT_ERROR)
      else
        ([.clearDir skillDir, .gitClone repoUrl skillDir,
          .removeDir (skillDir ++ "/.git"), .writeMeta skillDir], .ok)

/-- `fetchGitFolder` from `fetchers/git-folder.ts` as an action trace:
parse, require an embedded folder path, resolve the ref, clone the whole
repository into the unique temporary directory (no trusted-URL check),
validate the joined subfolder path under the temporary root, clear the
destination, validate it under the skills path, copy the subfolder over,
persist metadata; the temporary directory is removed on every exit path
(the `finally` block). -/
def fetchGitFolder (skillName : String) (c : SkillConfig) (skillsPath tempDir : String)
    (env : GitCloneEnv) : List FetchAction × FetchEnd :=
  match parseGitUrl c.remote .GIT_FOLDER with
  | none => ([], .error INVALID_URL)
  | some parsed =>
    if ¬ isTruthy parsed.path then ([], .error INVALID_URL)
    else
      let repoUrl := buildRepositoryUrl parsed
      if ¬ env.cloneOk then
        ([.gitClone repoUrl tempDir, .removeDir tempDir], .error GIT_ERROR)
      else
        let sourcePath := joinPath tempDir (parsed.path.getD "")
        if ¬ validateFilePath tempDir sourcePath then
          ([.gitClone repoUrl tempDir, .removeDir tempDir], .error VALIDATION_ERROR)
        else
          let skillDir := joinPath skillsPath skillName
          if ¬ validateFilePath skillsPath skillDir then
            ([.gitClone repoUrl tempDir, .clearDir skillDir, .removeDir tempDir],
              .error VALIDATION_ERROR)
          else
            ([.gitClone repoUrl tempDir, .clearDir skillDir,
              .copyDir sourcePath skillDir, .writeMeta skillDir, .removeDir tempDir],
              .ok)

/-- Environment for `fetchGist`: the HTTP outcome and the file set of the
returned gist. -/
structure GistEnv where
  httpOk : Bool
  files : List GistFile
deriving DecidableEq

/-- The Gist API URL built by `fetchGist` (`GITHUB_CONFIG.API_URL` is in
`constants.ts`; the revision segment is appended when a ref is
configured). -/
def gistApiUrl (gistId : String) (ref : Option String) : String :=
  if isTruthy ref then
    "https://api.github.com/gists/" ++ gistId ++ "/" ++ ref.getD ""
  else "https://api.github.com/gists/" ++ gistId

/-- `fetchGist` from `fetchers/gist.ts` as an action trace: extract the
gist id, build the API URL (revision appended when a ref is configured),
validate it against the allow-list, fetch it, select the target file,
enforce the size ceiling, write `SKILL.md`, persist metadata. -/
def fetchGist (skillName : String) (c : SkillConfig) (skillsPath : String)
    (env : GistEnv) : List FetchAction × FetchEnd :=
  match parseGistUrl c.remote with
  | none => ([], .error INVALID_URL)
  | some gistId =>
    let apiUrl := gistApiUrl gistId c.ref
    match validateTrustedUrl apiUrl none with
    | .untrusted => ([.validateUrl apiUrl], .error VALIDATION_ERROR)
    | .invalidUrl => ([.validateUrl apiUrl], .error INVALID_URL)
    | .ok =>
      if ¬ env.httpOk then
        ([.validateUrl apiUrl, .httpGet apiUrl], .error FETCH_FAILED)
      else
        match selectGistFile c.filename env.files with
        | .error _ => ([.validateUrl apiUrl, .httpGet apiUrl], .error FETCH_FAILED)
        | .ok f =>
          if MAX_FILE_SIZE < f.content.length then
            ([.validateUrl apiUrl, .httpGet apiUrl], .error FILE_SIZE_EXCEEDED)
          else
            let skillDir := joinPath skillsPath skillName
            ([.validateUrl apiUrl, .httpGet apiUrl,
              .writeFile skillDir DEFAULT_SKILL_FILENAME, .writeMeta skillDir], .ok)

/-- Whether every network action (`httpGet` or `gitClone`) in a trace is
preceded by a trusted-URL validation of the same URL. -/
def netValidatedAux : List String → List FetchAction → Bool
  | _, [] => true
  | seen, .validateUrl u :: rest => netValidatedAux (u :: seen) rest
  | seen, .httpGet u :: rest => seen.contains u && netValidatedAux seen rest
  | seen, .gitClone u _ :: rest => seen.contains u && netValidatedAux seen rest
  | seen, _ :: rest => netValidatedAux seen rest

/-- A trace performs no network call on a URL that was not first checked
against the trusted-domain allow-list. -/
def networkValidated (tr : List FetchAction) : Bool :=
  netValidatedAux [] tr

/-- Whether an action is a trusted-URL validation. -/
def isValidateAction : FetchAction → Bool
  | .validateUrl _ => true
  | _ => false

/-! ### Sync orchestration (from `src/sync.ts`) -/

/-- One skill's external outcomes during `syncSkills`:
`configOk` is the outcome of `validateSkillConfig` (its implementation
lives in the excluded configuration module), `skipEnv` the filesystem
state read by the skip check, `promptAnswer` the injected confirmation,
and `fetchError` the fetch outcome (`none` = success). -/
structure SkillSyncEnv where
  configOk : Bool
  skipEnv : SkipEnv
  promptAnswer : Bool
  fetchError : Option String
deriving DecidableEq

/-- The fetch step of the sync loop: dispatch to the strategy and record
its outcome in the skill's result. -/
def fetchStep (name : String) (env : SkillSyncEnv) : FetchResult :=
  match env.fetchError with
  | some e => ⟨name, false, some e, none, none⟩
  | none => ⟨name, true, none, none, none⟩

/-- One iteration of the `syncSkills` loop (from `sync.ts`), in source
order: sanitize the name (failure recorded under the raw name), validate
the config, short-circuit on dry-run, unless forced run the skip check
and either skip, defer to the confirmation on `needsInteraction` (a
declined prompt records a skip), or fetch. -/
def processSkill (dryRun : Bool) (forceSkills : Option (List String))
    (rawName : String) (c : SkillConfig) (env : SkillSyncEnv) : FetchResult :=
  match sanitizeSkillName rawName with
  | none => ⟨rawName, false, some "Skill name validation failed", none, none⟩
  | some name =>
    if ¬ env.configOk then ⟨name, false, some "Invalid skill config", none, none⟩
    else if dryRun then ⟨name, true, none, none, none⟩
    else
      let shouldForce :=
        match forceSkills with
        | some l => !l.isEmpty && l.contains name
        | none => false
      if shouldForce then fetchStep name env
      else
        let sc := shouldSkipSync c env.skipEnv
        if sc.shouldSkip then ⟨name, true, none, some true, some sc.reason⟩
        else if sc.needsInteraction = some true ∧ ¬ env.promptAnswer then
          ⟨name, true, none, some true, some sc.reason⟩
        else fetchStep name env

/-- Raw skill name shown in a skill's result: the sanitized name when
sanitization succeeds, the raw configured name otherwise. -/
def displayName (rawName : String) : String :=
  (sanitizeSkillName rawName).getD rawName

/-- `syncSkills` from `sync.ts`: process the configured skills in
declaration order, each against its own environment, collecting one
result per skill. -/
def syncSkills (dryRun : Bool) (forceSkills : Option (List String))
    (skills : List (String × SkillConfig)) (envs : Nat → SkillSyncEnv) :
    List FetchResult :=
  skills.enum.map (fun p => processSkill dryRun forceSkills p.2.1 p.2.2 (envs p.1))

/-! ## Lemmas about the content hash -/

theorem lexLe_antisymm {a b : List Char} (hab : lexLe a b = true)
    (hba : lexLe b a = true) : a = b := by
  induction a generalizing b with
  | nil =>
    cases b with
    | nil => rfl
    | cons d ds => simp [lexLe] at hba
  | cons c cs ih =>
    cases b with
    | nil => simp [lexLe] at hab
    | cons d ds =>
      rcases lt_trichotomy c d with h | h | h
      · simp [lexLe, h, not_lt_of_gt h] at hba
      · subst h
        simp only [lexLe, lt_irrefl, if_false] at hab hba
        exact congrArg (c :: ·) (ih hab hba)
      · simp [lexLe, h, not_lt_of_gt h] at hab

theorem digestStream_foldl (l : List FileEntry) (a : List Nat) :
    l.foldl (fun acc f => acc ++ strBytes f.relPath ++ f.content) a
      = a ++ digestStream l := by
  induction l generalizing a with
  | nil => simp [digestStream]
  | cons f fs ih =>
    simp only [digestStream, List.foldl_cons, List.nil_append]
    rw [ih, ih (strBytes f.relPath ++ f.content)]
    simp [List.append_assoc]

theorem digestStream_cons (f : FileEntry) (l : List FileEntry) :
    digestStream (f :: l) = strBytes f.relPath ++ (f.content ++ digestStream l) := by
  have h := digestStream_foldl l (strBytes f.relPath ++ f.content)
  simp only [digestStream, List.foldl_cons, List.nil_append] at *
  rw [h, List.append_assoc]

theorem relPath_eq_of_le_ge {a b : FileEntry} (hab : fileLe a b) (hba : fileLe b a) :
    a.relPath = b.relPath :=
  String.ext (lexLe_antisymm hab hba)

theorem sorted_fileLt_of_sorted_nodup {l : List FileEntry}
    (hs : List.Sorted fileLe l) (hn : (l.map FileEntry.relPath).Nodup) :
    List.Sorted fileLt l := by
  have hp : List.Pairwise (fun a b : FileEntry => a.relPath ≠ b.relPath) l :=
    List.pairwise_map.mp hn
  exact (hs.and hp).imp (fun h =>
    ⟨h.1, fun hba => h.2 (relPath_eq_of_le_ge h.1 hba)⟩)

/-- `files.sort()` is determined by the multiset of enumerated files when
their paths are distinct: filesystem enumeration order cannot affect the
sorted list. -/
theorem sortFiles_eq_of_perm {l1 l2 : List FileEntry} (hp : l1.Perm l2)
    (hn : (l1.map FileEntry.relPath).Nodup) : sortFiles l1 = sortFiles l2 := by
  have p1 : (sortFiles l1).Perm l1 := List.perm_insertionSort fileLe l1
  have p2 : (sortFiles l2).Perm l2 := List.perm_insertionSort fileLe l2
  have p12 : (sortFiles l1).Perm (sortFiles l2) := (p1.trans hp).trans p2.symm
  have s1 : List.Sorted fileLe (sortFiles l1) := List.sorted_insertionSort fileLe l1
  have s2 : List.Sorted fileLe (sortFiles l2) := List.sorted_insertionSort fileLe l2
  have n1 : ((sortFiles l1).map FileEntry.relPath).Nodup :=
    ((p1.map FileEntry.relPath).nodup_iff).mpr hn
  have n2 : ((sortFiles l2).map FileEntry.relPath).Nodup :=
    ((p12.map FileEntry.relPath).nodup_iff).mp n1
  exact List.eq_of_perm_of_sorted p12
    (sorted_fileLt_of_sorted_nodup s1 n1) (sorted_fileLt_of_sorted_nodup s2 n2)

theorem filter_orderedInsert_of_neg {p : FileEntry → Bool} {x : FileEntry}
    (hx : p x = false) (s : List FileEntry) :
    (List.orderedInsert fileLe x s).filter p = s.filter p := by
  induction s with
  | nil => simp [List.orderedInsert, hx]
  | cons b t ih =>
    by_cases h : fileLe x b
    · simp [List.orderedInsert, h, hx]
    · simp only [List.orderedInsert, h, if_false, List.filter_cons]
      rw [ih]

/-- Prepending the metadata sidecar to the enumeration does not change the
tracked-file list: the sidecar is skipped during hashing. -/
theorem trackedFiles_cons_metadata (m : List Nat) (l : List FileEntry) :
    trackedFiles (⟨METADATA_FILENAME, m⟩ :: l) = trackedFiles l := by
  have hx : (fun f : FileEntry => decide (f.relPath ≠ METADATA_FILENAME))
      ⟨METADATA_FILENAME, m⟩ = false := by simp
  simpa [trackedFiles, sortFiles, List.insertionSort] using
    filter_orderedInsert_of_neg hx (List.insertionSort fileLe l)

/-- The digest stream is injective on file lists with fixed path lists and
fixed per-file content lengths. -/
theorem digestStream_inj : ∀ (fs gs : List FileEntry),
    fs.map FileEntry.relPath = gs.map FileEntry.relPath →
    fs.map (fun f => f.content.length) = gs.map (fun f => f.content.length) →
    digestStream fs = digestStream gs → fs = gs := by
  intro fs
  induction fs with
  | nil =>
    intro gs hpath _ _
    cases gs with
    | nil => rfl
    | cons g gs => simp at hpath
  | cons f ft ih =>
    intro gs hpath hlen hstream
    cases gs with
    | nil => simp at hpath
    | cons g gt =>
      simp only [List.map_cons, List.cons.injEq] at hpath hlen
      rw [digestStream_cons, digestStream_cons, hpath.1] at hstream
      have h1 := List.append_cancel_left hstream
      have h2 := List.append_inj h1 hlen.1
      have hfg : f = g := by
        cases f; cases g
        simp only [FileEntry.mk.injEq]
        exact ⟨hpath.1, h2.1⟩
      rw [hfg, ih gt hpath.2 hlen.2 h2.2]

/-! ## Claims C2 and C3 -/

/-- C2 (counterexample): the claim "any tracked-path, content, or
presence/absence difference changes the hash" is false.  The digest
receives each file's relative path immediately followed by its content,
with no separator or length framing, so the one-file directory holding a
file named `ab` with content byte 99 and the one-file directory holding a
file named `a` with content bytes 98, 99 feed the identical byte stream
97, 98, 99 into SHA-256 and therefore receive the same hash, although
their tracked file sets (paths, contents, and presence of the file `ab`)
differ. -/
theorem calculateContentHash_collision :
    calculateContentHash [⟨"ab", [99]⟩] = calculateContentHash [⟨"a", [98, 99]⟩]
      ∧ (trackedFiles [⟨"ab", [99]⟩]).map FileEntry.relPath
          ≠ (trackedFiles [⟨"a", [98, 99]⟩]).map FileEntry.relPath := by
  decide

/-- C2 (amended): a difference in some tracked file's byte content between
two directories with the same tracked relative paths and the same
per-file content lengths always changes the byte stream fed to the digest
(hence the SHA-256 hash); in general a path/content/presence difference is
only guaranteed to change the hash when it changes the concatenated
path-then-content stream, because the digest input carries no separators
(see the collision above). -/
theorem calculateContentHash_content_change (l1 l2 : List FileEntry)
    (hpath : (trackedFiles l1).map FileEntry.relPath
      = (trackedFiles l2).map FileEntry.relPath)
    (hlen : (trackedFiles l1).map (fun f => f.content.length)
      = (trackedFiles l2).map (fun f => f.content.length))
    (hne : trackedFiles l1 ≠ trackedFiles l2) :
    calculateContentHash l1 ≠ calculateContentHash l2 := by
  intro h
  exact hne (digestStream_inj _ _ hpath hlen h)

/-- Witness for the amended C2 at a concrete input: same single path `a`,
contents of equal length 1 differing in one byte. -/
theorem calculateContentHash_content_change_witness :
    calculateContentHash [⟨"a", [1]⟩] ≠ calculateContentHash [⟨"a", [2]⟩] :=
  calculateContentHash_content_change [⟨"a", [1]⟩] [⟨"a", [2]⟩]
    (by decide) (by decide) (by decide)

/-- C3: `calculateContentHash` is deterministic (it is a function of the
enumerated files) and invariant under filesystem enumeration order: any
permutation of the enumerated file list with distinct relative paths
yields the same digest stream, hence the same SHA-256 hash; and the
metadata sidecar `.skill-manager.json` in the directory root is skipped,
so its presence and content never affect the result. -/
theorem calculateContentHash_order_invariant (l1 l2 : List FileEntry) (m : List Nat)
    (hp : l1.Perm l2) (hn : (l1.map FileEntry.relPath).Nodup) :
    calculateContentHash l1 = calculateContentHash l2
      ∧ calculateContentHash (⟨METADATA_FILENAME, m⟩ :: l1) = calculateContentHash l1 := by
  constructor
  · unfold calculateContentHash trackedFiles
    rw [sortFiles_eq_of_perm hp hn]
  · unfold calculateContentHash
    rw [trackedFiles_cons_metadata]

/-- Witness for C3 at a concrete input: the two enumeration orders of the
files `a` and `b`, and a metadata sidecar with content byte 9. -/
theorem calculateContentHash_order_invariant_witness :
    calculateContentHash [⟨"b", [2]⟩, ⟨"a", [1]⟩]
        = calculateContentHash [⟨"a", [1]⟩, ⟨"b", [2]⟩]
      ∧ calculateContentHash
            (⟨METADATA_FILENAME, [9]⟩ :: [⟨"b", [2]⟩, ⟨"a", [1]⟩])
          = calculateContentHash [⟨"b", [2]⟩, ⟨"a", [1]⟩] :=
  calculateContentHash_order_invariant [⟨"b", [2]⟩, ⟨"a", [1]⟩]
    [⟨"a", [1]⟩, ⟨"b", [2]⟩] [9] (List.Perm.swap _ _ _) (by decide)

/-! ## Claims C4, C5 and C6 -/

/-- C4: `shouldSkipSync` returns `shouldSkip = true` exactly when the
skill directory exists, the metadata sidecar file exists, an explicit ref
is resolvable for the config, the loaded metadata is valid (`loadMetadata`
returned a record), the stored remote, type and ref equal the configured
remote, type and currently resolved ref, and the recomputed content hash
equals the stored hash; whenever any of these fails — metadata absent or
invalid, remote/type/ref mismatch, no explicit ref resolvable, hash
mismatch or hash failure — it returns `shouldSkip = false`. -/
theorem shouldSkipSync_skip_iff (c : SkillConfig) (env : SkipEnv) :
    (shouldSkipSync c env).shouldSkip = true ↔
      (env.dirExists = true ∧ env.metaFileExists = true
        ∧ hasExplicitRefInConfig c = true
        ∧ ∃ m, env.loadedMetadata = some m ∧ m.remote = c.remote ∧ m.type = c.type
            ∧ m.ref = resolveRefForSkill c
            ∧ env.contentHashResult = some m.contentHash) := by
  rcases env with ⟨de, me, md, hr⟩
  simp only [shouldSkipSync]
  cases de with
  | false => simp
  | true =>
    cases me with
    | false => simp
    | true =>
      by_cases href : hasExplicitRefInConfig c
      · simp only [href, not_true_eq_false, if_false]
        cases md with
        | none => simp
        | some m =>
          simp only [Option.some.injEq]
          by_cases h1 : m.remote = c.remote
          · by_cases h2 : m.type = c.type
            · by_cases h3 : m.ref = resolveRefForSkill c
              · simp only [h1, h2, h3, ne_eq, not_true_eq_false, if_false, if_neg]
                cases hr with
                | none => simp
                | some h =>
                  by_cases h4 : m.contentHash = h
                  · subst h4; simp [h1, h2, h3]
                  · simp [h4, Ne.symm h4]
              · simp [h1, h2, h3]
            · simp [h1, h2]
          · simp [h1]
      · simp [href]

/-- C5 (counterexample): the claim "a GIT_FILE or GIT_FOLDER config with
no config-level ref whose URL-embedded ref segment is a branch name such
as the default branch always gets `shouldSkip = false`" is false.  For a
GIT_FOLDER config whose URL embeds the default branch `main` and no
config-level ref, `hasExplicitRefInConfig` counts the URL-embedded branch
segment as an explicit ref (its own comment cites `/blob/main/` as an
example), so with matching metadata and hash the sync is skipped even
though the resolved ref `main` tracks a moving branch head. -/
theorem shouldSkipSync_url_branch_cex :
    (⟨.GIT_FOLDER, "https://github.com/owner/repo/tree/main/folder", none, none⟩
        : SkillConfig).ref = none
    ∧ parseGitUrl "https://github.com/owner/repo/tree/main/folder" .GIT_FOLDER
        = some ⟨"owner", "repo", some "main", some "folder", "github"⟩
    ∧ resolveRefForSkill
        ⟨.GIT_FOLDER, "https://github.com/owner/repo/tree/main/folder", none, none⟩
        = some DEFAULT_GIT_REF
    ∧ (shouldSkipSync
        ⟨.GIT_FOLDER, "https://github.com/owner/repo/tree/main/folder", none, none⟩
        ⟨true, true,
          some ⟨"https://github.com/owner/repo/tree/main/folder", some "main",
            .GIT_FOLDER, "t", "h"⟩,
          some "h"⟩).shouldSkip = true := by decide

/-- C5 (amended): `shouldSkipSync` returns `shouldSkip = false` (and does
not request interaction) whenever no explicit ref is resolvable for the
config in the code's sense — no truthy config-level ref and, for
GIT_FILE/GIT_FOLDER, no truthy URL-embedded ref segment (always the case
for GIT_REPO and GIST without a config ref).  The code distinguishes only
presence of a ref, not branch versus pinned tag/commit: a URL-embedded
branch segment counts as explicit, so such "moving" targets can be
skipped (see the counterexample). -/
theorem shouldSkipSync_no_resolvable_ref (c : SkillConfig) (env : SkipEnv)
    (h : hasExplicitRefInConfig c = false) :
    (shouldSkipSync c env).shouldSkip = false
      ∧ (shouldSkipSync c env).needsInteraction = none := by
  rcases env with ⟨de, me, md, hr⟩
  simp only [shouldSkipSync]
  cases de with
  | false => simp
  | true =>
    cases me with
    | false => simp
    | true => simp [h]

/-- Witness for the amended C5 at a concrete input: a GIT_REPO config with
no ref anywhere. -/
theorem shouldSkipSync_no_resolvable_ref_witness :
    (shouldSkipSync ⟨.GIT_REPO, "https://github.com/o/r", none, none⟩
        ⟨true, true, none, none⟩).shouldSkip = false
      ∧ (shouldSkipSync ⟨.GIT_REPO, "https://github.com/o/r", none, none⟩
        ⟨true, true, none, none⟩).needsInteraction = none :=
  shouldSkipSync_no_resolvable_ref _ _ (by decide)

/-- C6: `shouldSkipSync` sets `needsInteraction = true` exactly when the
recomputed content hash succeeds but differs from the stored hash while
every earlier check passes (directory exists, metadata file exists and
loads as valid, explicit ref resolvable, stored remote/type/ref match);
in every other case — including a hash-computation failure — the field is
not set at all. -/
theorem shouldSkipSync_needsInteraction_iff (c : SkillConfig) (env : SkipEnv) :
    ((shouldSkipSync c env).needsInteraction = some true ↔
      (env.dirExists = true ∧ env.metaFileExists = true
        ∧ hasExplicitRefInConfig c = true
        ∧ ∃ m, env.loadedMetadata = some m ∧ m.remote = c.remote ∧ m.type = c.type
            ∧ m.ref = resolveRefForSkill c
            ∧ ∃ h, env.contentHashResult = some h ∧ h ≠ m.contentHash))
    ∧ ((shouldSkipSync c env).needsInteraction = none
        ∨ (shouldSkipSync c env).needsInteraction = some true) := by
  rcases env with ⟨de, me, md, hr⟩
  simp only [shouldSkipSync]
  cases de with
  | false => simp
  | true =>
    cases me with
    | false => simp
    | true =>
      by_cases href : hasExplicitRefInConfig c
      · simp only [href, not_true_eq_false, if_false]
        cases md with
        | none => simp
        | some m =>
          simp only [Option.some.injEq]
          by_cases h1 : m.remote = c.remote
          · by_cases h2 : m.type = c.type
            · by_cases h3 : m.ref = resolveRefForSkill c
              · simp only [h1, h2, h3, ne_eq, not_true_eq_false, if_false, if_neg]
                cases hr with
                | none => simp
                | some h =>
                  by_cases h4 : m.contentHash = h
                  · subst h4; simp
                  · simp [h4, Ne.symm h4, h1, h2, h3]
              · simp [h1, h2, h3]
            · simp [h1, h2]
          · simp [h1]
      · simp [href]

/-! ## Claim C7 -/

/-- C7 (amended): the GIST target-file priority.  (1) With a configured
filename that is a non-empty string, exactly that key is selected, and
its absence from the gist is a hard failure; (2) otherwise the file keyed
`SKILL.md` when present; (3) otherwise the first file whose name ends
(case-insensitively) in `.md` or `.markdown`; (4) otherwise the
"No markdown file found" failure.  The non-emptiness proviso in (1) is
forced by JavaScript truthiness (see the counterexample). -/
theorem selectGistFile_priority (fn : Option String) (files : List GistFile) :
    (∀ s f, fn = some s → s ≠ "" →
        files.find? (fun g => g.filename = s) = some f →
        selectGistFile fn files = .ok f ∧ f ∈ files ∧ f.filename = s)
    ∧ (∀ s, fn = some s → s ≠ "" → (∀ g ∈ files, g.filename ≠ s) →
        selectGistFile fn files = .error "File not found in Gist")
    ∧ (isTruthy fn = false →
        ∀ f, files.find? (fun g => g.filename = DEFAULT_SKILL_FILENAME) = some f →
          selectGistFile fn files = .ok f)
    ∧ (isTruthy fn = false → (∀ g ∈ files, g.filename ≠ DEFAULT_SKILL_FILENAME) →
        ∀ f, files.find? (fun g => isMarkdownName g.filename) = some f →
          selectGistFile fn files = .ok f)
    ∧ (isTruthy fn = false → (∀ g ∈ files, g.filename ≠ DEFAULT_SKILL_FILENAME) →
        (∀ g ∈ files, isMarkdownName g.filename = false) →
        selectGistFile fn files = .error "No markdown file found in Gist") := by
  refine ⟨?_, ?_, ?_, ?_, ?_⟩
  · intro s f hs hne hfind
    subst hs
    have htr : isTruthy (some s) = true := by simp [isTruthy, hne]
    constructor
    · simp [selectGistFile, htr, Option.getD, hfind]
    · exact ⟨List.mem_of_find?_eq_some hfind, by simpa using List.find?_some hfind⟩
  · intro s hs hne habs
    subst hs
    have htr : isTruthy (some s) = true := by simp [isTruthy, hne]
    have hfind : files.find? (fun g => g.filename = s) = none := by
      rw [List.find?_eq_none]
      intro g hg
      simpa using habs g hg
    simp [selectGistFile, htr, Option.getD, hfind]
  · intro htr f hfind
    simp [selectGistFile, htr, hfind]
  · intro htr habs f hfind
    have h0 : files.find? (fun g => g.filename = DEFAULT_SKILL_FILENAME) = none := by
      rw [List.find?_eq_none]
      intro g hg
      simpa using habs g hg
    simp [selectGistFile, htr, h0, hfind]
  · intro htr habs hmd
    have h0 : files.find? (fun g => g.filename = DEFAULT_SKILL_FILENAME) = none := by
      rw [List.find?_eq_none]
      intro g hg
      simpa using habs g hg
    have h1 : files.find? (fun g => isMarkdownName g.filename) = none := by
      rw [List.find?_eq_none]
      intro g hg
      simpa using hmd g hg
    simp [selectGistFile, htr, h0, h1]

/-- Witness for C7 at the specification's own scenarios, plus the two
configured-filename cases. -/
theorem selectGistFile_priority_witness :
    selectGistFile none [⟨"SKILL.md", "x"⟩, ⟨"notes.txt", "y"⟩] = .ok ⟨"SKILL.md", "x"⟩
    ∧ selectGistFile none [⟨"a.md", "x"⟩, ⟨"notes.txt", "y"⟩] = .ok ⟨"a.md", "x"⟩
    ∧ selectGistFile none [⟨"notes.txt", "y"⟩] = .error "No markdown file found in Gist"
    ∧ selectGistFile (some "custom.md") [⟨"custom.md", "z"⟩, ⟨"SKILL.md", "x"⟩]
        = .ok ⟨"custom.md", "z"⟩
    ∧ selectGistFile (some "custom.md") [⟨"SKILL.md", "x"⟩]
        = .error "File not found in Gist" :=
  ⟨((selectGistFile_priority none _).2.2.1 rfl _ (by decide)),
   ((selectGistFile_priority none _).2.2.2.1 rfl (by decide) _ (by decide)),
   ((selectGistFile_priority none _).2.2.2.2 rfl (by decide) (by decide)),
   ((selectGistFile_priority (some "custom.md") _).1 "custom.md" _ rfl (by decide)
      (by decide)).1,
   ((selectGistFile_priority (some "custom.md") _).2.1 "custom.md" rfl (by decide)
      (by decide))⟩

/-- C7 (counterexample): the claim's clause "(1) if config.filename is
set, exactly that file, and the fetch fails if it is absent from the
gist" is false for the empty string.  `filename?: string` set to `""` is
falsy in JavaScript, so `fetchGist` falls through to the `SKILL.md`
branch and succeeds, although the configured filename `""` is absent from
the gist's file set. -/
theorem selectGistFile_empty_filename_cex :
    (∀ g ∈ [(⟨"SKILL.md", "x"⟩ : GistFile), ⟨"notes.txt", "y"⟩], g.filename ≠ "")
    ∧ selectGistFile (some "") [⟨"SKILL.md", "x"⟩, ⟨"notes.txt", "y"⟩]
        = .ok ⟨"SKILL.md", "x"⟩ := by decide

/-! ## Claims C10 and C8 (path validation) -/

theorem joinSegs_prefix (s1 rest : List (List Char)) :
    (joinSegs s1) <+: (joinSegs (s1 ++ rest)) := by
  induction s1 with
  | nil => exact List.nil_prefix
  | cons a s1 ih =>
    cases s1 with
    | nil =>
      cases rest with
      | nil => simp
      | cons r rs =>
        show a <+: a ++ '/' :: joinSegs (r :: rs)
        exact List.prefix_append a _
    | cons b s1 =>
      obtain ⟨t, ht⟩ := ih
      refine ⟨t, ?_⟩
      show (a ++ '/' :: joinSegs (b :: s1)) ++ t
        = a ++ '/' :: joinSegs ((b :: s1) ++ rest)
      rw [List.append_assoc]
      simp [ht]

/-- Segment-level containment implies string-level prefix of the rendered
paths (joining with `/` preserves prefixes). -/
theorem renderAbs_prefix {s1 s2 : List (List Char)} (h : s1 <+: s2) :
    (renderAbs s1).isPrefixOf (renderAbs s2) = true := by
  obtain ⟨rest, hr⟩ := h
  subst hr
  rw [List.isPrefixOf_iff_prefix]
  unfold renderAbs
  rw [List.cons_prefix_cons]
  exact ⟨rfl, joinSegs_prefix s1 rest⟩

/-- C10: `validateFilePath` throws (`= false`) exactly when the resolved
target does not start with the resolved base as a string prefix; every
target genuinely inside the base directory passes; and consequently the
sibling target `/tmp/ab/x` is accepted under base `/tmp/a` — its resolved
string extends `/tmp/a` as a prefix — although it lies outside that
directory. -/
theorem validateFilePath_spec :
    (∀ b t : String, validateFilePath b t = false ↔
        ¬ (resolveChars b).isPrefixOf (resolveChars t) = true)
    ∧ (∀ b t : String, isWithinDir b t = true → validateFilePath b t = true)
    ∧ (validateFilePath "/tmp/a" "/tmp/ab/x" = true
        ∧ isWithinDir "/tmp/a" "/tmp/ab/x" = false) := by
  refine ⟨?_, ?_, by decide⟩
  · intro b t
    simp only [validateFilePath, Bool.eq_false_iff, ne_eq]
  · intro b t h
    unfold isWithinDir at h
    unfold validateFilePath resolveChars
    exact renderAbs_prefix (List.isPrefixOf_iff_prefix.mp h)

/-- Witness for C10 at a concrete input: a target genuinely inside the
base passes the check. -/
theorem validateFilePath_spec_witness :
    validateFilePath "/tmp/a" "/tmp/a/x" = true :=
  validateFilePath_spec.2.1 "/tmp/a" "/tmp/a/x" (by decide)

/-- C8 (counterexample): the claim "whenever the configured subfolder
joined to the temporary clone root resolves outside that root, the fetch
fails before any copy" is false.  With clone root `/tmp/skill-manager-1`
and configured subfolder `../skill-manager-1x`, the joined path
`/tmp/skill-manager-1x` lies outside the root (it is a sibling), yet it
extends the root's name as a string prefix, so `validateFilePath` passes
and the fetch clears the destination, copies the escaped folder into it
and succeeds. -/
theorem fetchGitFolder_escape_cex :
    validateFilePath "/tmp/skill-manager-1"
        (joinPath "/tmp/skill-manager-1" "../skill-manager-1x") = true
    ∧ isWithinDir "/tmp/skill-manager-1"
        (joinPath "/tmp/skill-manager-1" "../skill-manager-1x") = false
    ∧ FetchAction.clearDir "/skills/s" ∈
        (fetchGitFolder "s"
          ⟨.GIT_FOLDER, "https://github.com/o/r/tree/main/../skill-manager-1x", none, none⟩
          "/skills" "/tmp/skill-manager-1" ⟨true⟩).1
    ∧ FetchAction.copyDir "/tmp/skill-manager-1x" "/skills/s" ∈
        (fetchGitFolder "s"
          ⟨.GIT_FOLDER, "https://github.com/o/r/tree/main/../skill-manager-1x", none, none⟩
          "/skills" "/tmp/skill-manager-1" ⟨true⟩).1
    ∧ (fetchGitFolder "s"
          ⟨.GIT_FOLDER, "https://github.com/o/r/tree/main/../skill-manager-1x", none, none⟩
          "/skills" "/tmp/skill-manager-1" ⟨true⟩).2 = .ok := by decide

/-- C8 (amended): whenever the configured subfolder path joined to the
temporary clone root fails the string-prefix check of `validateFilePath`
(which is the case for every escape except one extending the root's name
as a string prefix, see the counterexample), the GIT_FOLDER fetch fails
with a validation error after cleaning up the temporary clone, and its
trace contains no clear, copy, file write or metadata write — the
destination skill directory is neither cleared nor written. -/
theorem fetchGitFolder_traversal_guard (skillName : String) (c : SkillConfig)
    (skillsPath tempDir : String) (env : GitCloneEnv) (pr : ParsedGitUrl)
    (hp : parseGitUrl c.remote .GIT_FOLDER = some pr)
    (hpath : isTruthy pr.path = true)
    (hval : validateFilePath tempDir (joinPath tempDir (pr.path.getD "")) = false) :
    (env.cloneOk = true →
        fetchGitFolder skillName c skillsPath tempDir env
          = ([.gitClone (buildRepositoryUrl pr) tempDir, .removeDir tempDir],
             .error VALIDATION_ERROR))
    ∧ ∀ a ∈ (fetchGitFolder skillName c skillsPath tempDir env).1,
        (∀ d, a ≠ .clearDir d) ∧ (∀ s d, a ≠ .copyDir s d)
          ∧ (∀ d n, a ≠ .writeFile d n) ∧ (∀ d, a ≠ .writeMeta d) := by
  rcases env with ⟨co⟩
  constructor
  · intro hco
    subst hco
    simp [fetchGitFolder, hp, hpath, hval]
  · intro a ha
    cases co with
    | false =>
      simp [fetchGitFolder, hp, hpath] at ha
      rcases ha with h | h <;> subst h <;> simp
    | true =>
      simp [fetchGitFolder, hp, hpath, hval] at ha
      rcases ha with h | h <;> subst h <;> simp

/-- Witness for the amended C8 at a concrete input: subfolder
`../../etc` escapes `/tmp/x` and fails the prefix check, so the fetch
stops with a validation error after removing the clone. -/
theorem fetchGitFolder_traversal_guard_witness :
    fetchGitFolder "s"
        ⟨.GIT_FOLDER, "https://github.com/o/r/tree/main/../../etc", none, none⟩
        "/skills" "/tmp/x" ⟨true⟩
      = ([.gitClone "https://github.com/o/r.git" "/tmp/x", .removeDir "/tmp/x"],
         .error VALIDATION_ERROR) :=
  (fetchGitFolder_traversal_guard "s" _ "/skills" "/tmp/x" ⟨true⟩
    ⟨"o", "r", some "main", some "../../etc", "github"⟩
    (by decide) (by decide) (by decide)).1 rfl

/-! ## Claim C1 -/

set_option maxHeartbeats 2000000 in
theorem fetchGitFile_validates (skillName skillsPath : String)
    (c : SkillConfig) (fe : GitFileEnv) :
    networkValidated (fetchGitFile skillName c skillsPath fe).1 = true := by
  rcases fe with ⟨ho, cl, bs⟩
  rcases hP : parseGitUrl c.remote .GIT_FILE with _ | pr
  · simp [fetchGitFile, hP, networkValidated, netValidatedAux]
  · by_cases ht : isTruthy pr.path
    · rcases hv : validateTrustedUrl
          (buildRawUrl { pr with ref := some (resolveRef c.ref pr.ref) }) none
        with _ | _ | _
      · simp only [fetchGitFile, hP, ht, hv, not_true_eq_false, if_false,
          Bool.not_eq_true]
        cases ho
        · simp [networkValidated, netValidatedAux]
        · repeat' split
          all_goals simp [networkValidated, netValidatedAux]
      · simp [fetchGitFile, hP, ht, hv, networkValidated, netValidatedAux]
      · simp [fetchGitFile, hP, ht, hv, networkValidated, netValidatedAux]
    · simp [fetchGitFile, hP, ht, networkValidated, netValidatedAux]

set_option maxHeartbeats 2000000 in
theorem fetchGist_validates (skillName skillsPath : String)
    (c : SkillConfig) (ge : GistEnv) :
    networkValidated (fetchGist skillName c skillsPath ge).1 = true := by
  rcases ge with ⟨ho, files⟩
  rcases hP : parseGistUrl c.remote with _ | gid
  · simp [fetchGist, hP, networkValidated, netValidatedAux]
  · rcases hv : validateTrustedUrl (gistApiUrl gid c.ref) none with _ | _ | _
    · simp only [fetchGist, hP, hv, Bool.not_eq_true]
      cases ho
      · simp [networkValidated, netValidatedAux]
      · repeat' split
        all_goals simp [networkValidated, netValidatedAux]
    · simp [fetchGist, hP, hv, networkValidated, netValidatedAux]
    · simp [fetchGist, hP, hv, networkValidated, netValidatedAux]

theorem fetchGitFile_rejects_untrusted (skillName skillsPath : String)
    (c : SkillConfig) (fe : GitFileEnv) (pr : ParsedGitUrl)
    (hp : parseGitUrl c.remote .GIT_FILE = some pr)
    (hpath : isTruthy pr.path = true)
    (hv : validateTrustedUrl
        (buildRawUrl { pr with ref := some (resolveRef c.ref pr.ref) }) none
      = .untrusted) :
    (fetchGitFile skillName c skillsPath fe).2 = .error VALIDATION_ERROR := by
  rcases fe with ⟨ho, cl, bs⟩
  simp [fetchGitFile, hp, hpath, hv]

theorem fetchGitFolder_no_validate (skillName skillsPath tempDir : String)
    (c : SkillConfig) (ce : GitCloneEnv) :
    ∀ a ∈ (fetchGitFolder skillName c skillsPath tempDir ce).1,
      isValidateAction a = false := by
  intro a ha
  rcases ce with ⟨co⟩
  rcases hP : parseGitUrl c.remote .GIT_FOLDER with _ | pr
  · simp [fetchGitFolder, hP] at ha
  · by_cases ht : isTruthy pr.path
    · cases co
      · simp [fetchGitFolder, hP, ht] at ha
        rcases ha with rfl | rfl <;> rfl
      · by_cases h1 : validateFilePath tempDir (joinPath tempDir (pr.path.getD ""))
        · by_cases h2 : validateFilePath skillsPath (joinPath skillsPath skillName)
          · simp [fetchGitFolder, hP, ht, h1, h2] at ha
            rcases ha with rfl | rfl | rfl | rfl | rfl <;> rfl
          · simp [fetchGitFolder, hP, ht, h1, h2] at ha
            rcases ha with rfl | rfl | rfl <;> rfl
        · simp [fetchGitFolder, hP, ht, h1] at ha
          rcases ha with rfl | rfl <;> rfl
    · simp [fetchGitFolder, hP, ht] at ha

theorem fetchGitRepo_no_validate (skillName skillsPath : String)
    (c : SkillConfig) (cr : GitCloneEnv) :
    ∀ a ∈ (fetchGitRepo skillName c skillsPath cr).1,
      isValidateAction a = false := by
  intro a ha
  rcases cr with ⟨co⟩
  rcases hP : parseGitUrl c.remote .GIT_REPO with _ | pr
  · simp [fetchGitRepo, hP] at ha
  · by_cases h2 : validateFilePath skillsPath (joinPath skillsPath skillName)
    · cases co
      · simp [fetchGitRepo, hP, h2] at ha
        rcases ha with rfl | rfl <;> rfl
      · simp [fetchGitRepo, hP, h2] at ha
        rcases ha with rfl | rfl | rfl | rfl <;> rfl
    · simp [fetchGitRepo, hP, h2] at ha
      rcases ha with rfl
      rfl

/-- C1 (counterexample): the claim "every strategy validates every
externally constructed URL against the trusted-domain allow-list before
any network call, including git clone" is false.  A GIT_FOLDER fetch
clones the constructed repository URL with no `validateTrustedUrl` call
anywhere in its trace (`networkValidated` fails), and completes
successfully; the GIT_REPO strategy behaves the same way. -/
theorem fetch_clone_without_validation_cex :
    FetchAction.gitClone "https://github.com/o/r.git" "/tmp/t" ∈
        (fetchGitFolder "s"
          ⟨.GIT_FOLDER, "https://github.com/o/r/tree/main/sub", none, none⟩
          "/skills" "/tmp/t" ⟨true⟩).1
    ∧ networkValidated
        (fetchGitFolder "s"
          ⟨.GIT_FOLDER, "https://github.com/o/r/tree/main/sub", none, none⟩
          "/skills" "/tmp/t" ⟨true⟩).1 = false
    ∧ (fetchGitFolder "s"
          ⟨.GIT_FOLDER, "https://github.com/o/r/tree/main/sub", none, none⟩
          "/skills" "/tmp/t" ⟨true⟩).2 = .ok
    ∧ FetchAction.gitClone "https://github.com/o/r.git" "/skills/s" ∈
        (fetchGitRepo "s" ⟨.GIT_REPO, "https://github.com/o/r", none, none⟩
          "/skills" ⟨true⟩).1
    ∧ networkValidated
        (fetchGitRepo "s" ⟨.GIT_REPO, "https://github.com/o/r", none, none⟩
          "/skills" ⟨true⟩).1 = false
    ∧ (fetchGitRepo "s" ⟨.GIT_REPO, "https://github.com/o/r", none, none⟩
          "/skills" ⟨true⟩).2 = .ok := by decide

/-- C1 (amended): the two HTTP-based strategies (GIT_FILE and GIST)
validate their constructed URL against the trusted-domain allow-list
before their network request — no request is issued on a URL that was not
first checked — and GIT_FILE rejects an untrusted raw URL with a
validation failure before fetching; the two clone-based strategies
(GIT_FOLDER and GIT_REPO) perform `git clone` on the constructed
repository URL with no trusted-domain validation at all (see the
counterexample). -/
theorem fetch_trusted_url_validation (skillName skillsPath tempDir : String)
    (c : SkillConfig) (fe : GitFileEnv) (ge : GistEnv) (ce cr : GitCloneEnv) :
    networkValidated (fetchGitFile skillName c skillsPath fe).1 = true
    ∧ networkValidated (fetchGist skillName c skillsPath ge).1 = true
    ∧ (∀ pr, parseGitUrl c.remote .GIT_FILE = some pr → isTruthy pr.path = true →
        validateTrustedUrl
            (buildRawUrl { pr with ref := some (resolveRef c.ref pr.ref) }) none
          = .untrusted →
        (fetchGitFile skillName c skillsPath fe).2 = .error VALIDATION_ERROR)
    ∧ (∀ a ∈ (fetchGitFolder skillName c skillsPath tempDir ce).1,
        isValidateAction a = false)
    ∧ (∀ a ∈ (fetchGitRepo skillName c skillsPath cr).1,
        isValidateAction a = false) := by
  refine ⟨fetchGitFile_validates skillName skillsPath c fe,
    fetchGist_validates skillName skillsPath c ge, ?_,
    fetchGitFolder_no_validate skillName skillsPath tempDir c ce,
    fetchGitRepo_no_validate skillName skillsPath c cr⟩
  intro pr hp hpath hv
  exact fetchGitFile_rejects_untrusted skillName skillsPath c fe pr hp hpath hv

/-- Witness for the amended C1 at concrete inputs: a GitHub file fetch has
a fully validated trace; a GitLab file fetch is rejected with a
validation error because `gitlab.com` is not on the default allow-list;
and the clone action of a folder fetch is not a validation. -/
theorem fetch_trusted_url_validation_witness :
    networkValidated (fetchGitFile "s"
        ⟨.GIT_FILE, "https://github.com/o/r/blob/main/f.md", none, none⟩
        "/skills" ⟨true, none, 0⟩).1 = true
    ∧ (fetchGitFile "s"
        ⟨.GIT_FILE, "https://gitlab.com/o/r/blob/main/f.md", none, none⟩
        "/skills" ⟨true, none, 0⟩).2 = .error VALIDATION_ERROR
    ∧ isValidateAction
        (FetchAction.gitClone "https://github.com/o/r.git" "/tmp/t") = false :=
  ⟨(fetch_trusted_url_validation "s" "/skills" "/tmp/t"
      ⟨.GIT_FILE, "https://github.com/o/r/blob/main/f.md", none, none⟩
      ⟨true, none, 0⟩ ⟨true, []⟩ ⟨true⟩ ⟨true⟩).1,
   (fetch_trusted_url_validation "s" "/skills" "/tmp/t"
      ⟨.GIT_FILE, "https://gitlab.com/o/r/blob/main/f.md", none, none⟩
      ⟨true, none, 0⟩ ⟨true, []⟩ ⟨true⟩ ⟨true⟩).2.2.1
      ⟨"o", "r", some "main", some "f.md", "gitlab"⟩ (by decide) (by decide) (by decide),
   (fetch_trusted_url_validation "s" "/skills" "/tmp/t"
      ⟨.GIT_FOLDER, "https://github.com/o/r/tree/main/sub", none, none⟩
      ⟨true, none, 0⟩ ⟨true, []⟩ ⟨true⟩ ⟨true⟩).2.2.2.1
      (FetchAction.gitClone "https://github.com/o/r.git" "/tmp/t") (by decide)⟩

/-! ## Claim C9 -/

/-- Each loop iteration reports its outcome under the sanitized name when
sanitization succeeds and the raw configured name otherwise, on every
control path. -/
theorem processSkill_name (d : Bool) (f : Option (List String)) (raw : String)
    (c : SkillConfig) (env : SkillSyncEnv) :
    (processSkill d f raw c env).skillName = displayName raw := by
  unfold processSkill displayName
  rcases h : sanitizeSkillName raw with _ | n
  · simp [h]
  · simp only [h, Option.getD_some]
    repeat' split
    all_goals first
      | rfl
      | (unfold fetchStep; split <;> rfl)

/-- C9: `syncSkills` produces exactly one outcome per configured skill in
declaration order — the name list of the results equals the name list of
the configuration — and the outcome at position `i` is a function of
skill `i`'s own configuration and environment alone, so an error in one
skill is recorded in that skill's outcome and cannot affect, abort or
suppress any other skill's processing; a name-validation failure and a
fetch failure are recorded as failed outcomes of the affected skill. -/
theorem syncSkills_spec (d : Bool) (f : Option (List String))
    (skills : List (String × SkillConfig)) (envs : Nat → SkillSyncEnv) :
    ((syncSkills d f skills envs).map FetchResult.skillName
        = skills.map (fun p => displayName p.1))
    ∧ (∀ i : Nat, (syncSkills d f skills envs)[i]?
        = (skills[i]?).map (fun p => processSkill d f p.1 p.2 (envs i)))
    ∧ (∀ raw c env, sanitizeSkillName raw = none →
        processSkill d f raw c env
          = ⟨raw, false, some "Skill name validation failed", none, none⟩)
    ∧ (∀ raw name c env e, sanitizeSkillName raw = some name → env.configOk = true →
        env.fetchError = some e →
        processSkill false (some [name]) raw c env
          = ⟨name, false, some e, none, none⟩) := by
  have hget : ∀ i : Nat, (syncSkills d f skills envs)[i]?
      = (skills[i]?).map (fun p => processSkill d f p.1 p.2 (envs i)) := by
    intro i
    unfold syncSkills
    rw [List.getElem?_map, List.getElem?_enum]
    cases skills[i]? <;> rfl
  refine ⟨?_, hget, ?_, ?_⟩
  · apply List.ext_getElem?
    intro i
    rw [List.getElem?_map, hget i, List.getElem?_map]
    cases skills[i]? with
    | none => rfl
    | some p => simp [processSkill_name]
  · intro raw c env h
    unfold processSkill
    rw [h]
  · intro raw name c env e h1 h2 h3
    unfold processSkill fetchStep
    rw [h1]
    simp [h2, h3]

/-- Witness for C9 at a concrete input: a two-skill batch (one valid name,
one traversal-unsafe name) yields exactly the two outcomes in declaration
order; the invalid name and a failing fetch are recorded as failures of
their own skill. -/
theorem syncSkills_spec_witness :
    (syncSkills false none
        [("alpha", ⟨.GIT_REPO, "https://github.com/o/r", none, none⟩),
         ("bad..name", ⟨.GIT_REPO, "https://github.com/o/r", none, none⟩)]
        (fun _ => ⟨true, ⟨false, false, none, none⟩, false, none⟩)).map
        FetchResult.skillName = ["alpha", "bad..name"]
    ∧ processSkill false none "bad..name"
        ⟨.GIT_REPO, "https://github.com/o/r", none, none⟩
        ⟨true, ⟨false, false, none, none⟩, false, none⟩
      = ⟨"bad..name", false, some "Skill name validation failed", none, none⟩
    ∧ processSkill false (some ["alpha"]) "alpha"
        ⟨.GIT_REPO, "https://github.com/o/r", none, none⟩
        ⟨true, ⟨false, false, none, none⟩, false, some "boom"⟩
      = ⟨"alpha", false, some "boom", none, none⟩ :=
  ⟨by
    rw [(syncSkills_spec false none _ _).1]
    decide,
   (syncSkills_spec false none []
      (fun _ => ⟨true, ⟨false, false, none, none⟩, false, none⟩)).2.2.1
      "bad..name" _ _ (by decide),
   (syncSkills_spec false none []
      (fun _ => ⟨true, ⟨false, false, none, none⟩, false, none⟩)).2.2.2
      "alpha" "alpha" _ _ "boom" (by decide) rfl rfl⟩

end SkillManager
